import Mathlib

/-!
Shallow embedding of the plant-growing dashboard (`src/main.py`) and proofs
about its data-loading, filtering, export and summary logic.

Tables (pandas DataFrames) are modelled as a header of column names together
with a list of rows of cells.  The per-school dictionaries built by
`load_data` are modelled as insertion-ordered association lists with Python
dict update semantics.  Unicode NFC normalization (`unicodedata.normalize`)
is kept abstract as a parameter `nfc : String → String`; everything else is
translated directly from the source.
-/

namespace PlantDash

/-- Cell values of a table: raw strings, rationals for numeric cells, and
strings that have been coerced to the datetime dtype by `pd.to_datetime`
(the underlying time value is kept as its string representation). -/
inductive Value where
  | str (s : String)
  | num (q : ℚ)
  | dt (s : String)
  deriving DecidableEq

/-- A pandas DataFrame: a list of column names and a list of rows. -/
structure Table where
  header : List String
  rows : List (List Value)
  deriving DecidableEq

/-- Number of rows of a table (`len(df)`). -/
def Table.nrows (t : Table) : Nat := t.rows.length

/-- Rows all have exactly one cell per column, as in any DataFrame. -/
def Table.WF (t : Table) : Prop := ∀ r ∈ t.rows, r.length = t.header.length

instance (t : Table) : Decidable t.WF := by
  unfold Table.WF; infer_instance

/-- Test whether `hay` starts with the block `pat` (character lists). -/
def leadsWith : List Char → List Char → Bool
  | [], _ => true
  | _ :: _, [] => false
  | p :: ps, h :: hs => (p = h) && leadsWith ps hs

/-- Test whether `pat` occurs contiguously inside `hay`: the Python
substring operator `pat in hay`. -/
def containsSeq (pat : List Char) : List Char → Bool
  | [] => leadsWith pat []
  | h :: hs => leadsWith pat (h :: hs) || containsSeq pat hs

/-- Python `pat in hay` on strings (`school in norm_name`, line 52/63). -/
def strContains (hay pat : String) : Bool := containsSeq pat.toList hay.toList

/-- Python `name.endswith(ext)` (lines 50 and 58). -/
def strEndsWith (s ext : String) : Bool := leadsWith ext.toList.reverse s.toList.reverse

/-- Per-school dictionary, e.g. `env_data` / `growth_data`: an
insertion-ordered association list from school label to table. -/
abbrev Dict := List (String × Table)

/-- Python dict assignment `d[k] = v`: replace in place if the key is
present (keeping its position), otherwise append at the end. -/
def dictInsert (k : String) (v : Table) : Dict → Dict
  | [] => [(k, v)]
  | (k', v') :: rest => if k' = k then (k, v) :: rest else (k', v') :: dictInsert k v rest

/-- Python dict lookup `d[k]`, as an option (`none` models a `KeyError`). -/
def dictLookup (s : String) : Dict → Option Table
  | [] => none
  | (k, t) :: rest => if k = s then some t else dictLookup s rest

/-- Key list of a dictionary, in insertion order (`d.keys()`). -/
def keys (d : Dict) : List String := d.map (fun p => p.1)

/-- Index of the first column named `c` in a header (`df[c]` column lookup). -/
def colIdx (c : String) : List String → Option Nat
  | [] => none
  | h :: rest => if h = c then some 0 else (colIdx c rest).map (fun i => i + 1)

/-- Cell of a row at a given position. -/
def getIdx : List Value → Nat → Option Value
  | [], _ => none
  | v :: _, 0 => some v
  | _ :: rest, n + 1 => getIdx rest n

/-- Replace the cell of a row at a given position. -/
def setIdx : List Value → Nat → Value → List Value
  | [], _, _ => []
  | _ :: rest, 0, v => v :: rest
  | x :: rest, n + 1, v => x :: setIdx rest n v

/-- Apply a function to the cell at a given position. -/
def modifyIdx (f : Value → Value) : Nat → List Value → List Value
  | _, [] => []
  | 0, v :: rest => f v :: rest
  | n + 1, x :: rest => x :: modifyIdx f n rest

/-- Cell of a row under a column name (`row[c]`). -/
def getCellBy (header : List String) (r : List Value) (c : String) : Option Value :=
  (colIdx c header).bind (getIdx r)

/-- Coercion of one cell by `pd.to_datetime`: a raw string becomes a
datetime-typed cell; cells already parsed are left as they stand. -/
def toDtCell : Value → Value
  | .str s => .dt s
  | v => v

/-- Line 54: `df['time'] = pd.to_datetime(df['time'])`.  When the `time`
column is absent the real code raises an uncaught `KeyError` (spec §4.2:
malformed files are fatal); that branch is never reached by the claims and
is modelled as the identity. -/
def coerceTime (t : Table) : Table :=
  match colIdx "time" t.header with
  | some i => ⟨t.header, t.rows.map (fun r => modifyIdx toDtCell i r)⟩
  | none => t

/-- Static per-school configuration (line 34): EC target and display color. -/
structure SchoolInfo where
  ecTarget : ℚ
  color : String
  deriving DecidableEq

/-- The `school_info` mapping of `load_data` (lines 34-39), in source order. -/
def school_info : List (String × SchoolInfo) :=
  [("송도고", ⟨1, "#AB63FA"⟩),
   ("하늘고", ⟨2, "#00CC96"⟩),
   ("아라고", ⟨4, "#FFA15A"⟩),
   ("동산고", ⟨8, "#EF553B"⟩)]

/-- The four fixed school labels, in enumeration order (`school_info.keys()`). -/
def schoolLabels : List String := school_info.map (fun p => p.1)

/-- Lookup into the static school configuration (`info_dict[s]`). -/
def lookupInfo (s : String) : Option SchoolInfo :=
  (school_info.find? (fun p => p.1 = s)).map (fun p => p.2)

/-- Content of a directory entry: either bytes that parse as one table
(a CSV file) or as a workbook of named sheets (an XLSX file). -/
inductive FileContent where
  | table (t : Table)
  | book (sheets : List (String × Table))
  deriving DecidableEq

/-- A directory entry seen by `data_path.iterdir()`: a file name and the
tabular content its bytes parse to. -/
structure FileEntry where
  name : String
  content : FileContent
  deriving DecidableEq

/-- The inner loop `for school in school_info.keys(): if school in ...`
(lines 51-55 and 62-64), generalized over the label list for induction:
every label satisfying `cond` gets the value `v` assigned into `d`. -/
def labelFoldAux (labels : List String) (cond : String → Bool) (v : Table) (d : Dict) : Dict :=
  labels.foldl (fun e sc => if cond sc then dictInsert sc v e else e) d

/-- The label loop instantiated at the actual four labels. -/
def labelFold (cond : String → Bool) (v : Table) (d : Dict) : Dict :=
  labelFoldAux schoolLabels cond v d

/-- Lines 60-64: the sheet loop of the XLSX branch.  Each sheet name is NFC
normalized and assigned to every label occurring in it as a substring. -/
def sheetFold (nfc : String → String) (sheets : List (String × Table)) (d : Dict) : Dict :=
  sheets.foldl (fun g p => labelFold (fun sc => strContains (nfc p.1) sc) p.2 g) d

/-- One iteration of the file loop of `load_data` (lines 45-64): normalize
the file name, dispatch on the `.csv` / `.xlsx` extension, and assign the
parsed table (CSV rows get their `time` column coerced) to every matching
label.  An entry whose extension does not match its content corresponds to
an uncaught parser failure in the source (spec §4.2) and leaves the
accumulator unchanged here; no claim reaches that case. -/
def loadStep (nfc : String → String) (acc : Dict × Dict) (f : FileEntry) : Dict × Dict :=
  if strEndsWith (nfc f.name) ".csv" then
    match f.content with
    | .table t =>
        (labelFold (fun sc => strContains (nfc f.name) sc) (coerceTime t) acc.1, acc.2)
    | .book _ => acc
  else if strEndsWith (nfc f.name) ".xlsx" then
    match f.content with
    | .book sheets => (acc.1, sheetFold nfc sheets acc.2)
    | .table _ => acc
  else acc

/-- The file loop of `load_data` over the whole directory listing: returns
the `(env_data, growth_data)` pair of per-school dictionaries. -/
def loadTables (nfc : String → String) (files : List FileEntry) : Dict × Dict :=
  files.foldl (loadStep nfc) ([], [])

/-- Result of the `load_data` function itself: `errPair` models the branch
`st.error(...); return None, None` taken when the `data` directory does not
exist (lines 29-31); `ok` models the normal `return env_data, growth_data,
school_info` (the third component is the constant `school_info`). -/
inductive LoadOutcome where
  | errPair
  | ok (env growth : Dict)
  deriving DecidableEq

/-- The `load_data` function (lines 27-66).  The directory listing is
`none` when the `data` folder does not exist. -/
def load_data (nfc : String → String) (dir : Option (List FileEntry)) : LoadOutcome :=
  match dir with
  | none => .errPair
  | some files => .ok (loadTables nfc files).1 (loadTables nfc files).2

/-- Whether `load_data` called `st.error` for a missing directory. -/
def dirErrorShown (dir : Option (List FileEntry)) : Bool := dir.isNone

/-- How the module-level code after `load_data` can halt the session. -/
inductive SessionError where
  | unpackMismatch
  | emptyDataGuard
  deriving DecidableEq

/-- Outcome of the module-level load-and-guard block (lines 69-74):
`halted .unpackMismatch` is the `ValueError` raised when the 2-tuple
`(None, None)` is unpacked into the three names `env_dict, growth_dict,
info_dict`; `halted .emptyDataGuard` is the `st.error` + `st.stop()` taken
when either dictionary is empty (Python truthiness of `not env_dict or not
growth_dict`); `proceed` continues into the dashboard body. -/
inductive SessionResult where
  | halted (e : SessionError)
  | proceed (env growth : Dict)
  deriving DecidableEq

/-- The module-level load and guard (lines 69-74). -/
def sessionLoad (nfc : String → String) (dir : Option (List FileEntry)) : SessionResult :=
  match load_data nfc dir with
  | .errPair => .halted .unpackMismatch
  | .ok e g => if e.isEmpty || g.isEmpty then .halted .emptyDataGuard else .proceed e g

/-- Lines 83/84/86/87: `df.assign(school=s)` — a derived copy of the table
with a `school` column holding `s`; an existing `school` column is replaced
in place, otherwise the column is appended. -/
def assignSchool (t : Table) (s : String) : Table :=
  match colIdx "school" t.header with
  | some i => ⟨t.header, t.rows.map (fun r => setIdx r i (.str s))⟩
  | none => ⟨t.header ++ ["school"], t.rows.map (fun r => r ++ [.str s])⟩

/-- Row-wise `pd.concat`.  The source only ever concatenates frames of one
common schema, so the header is the first frame's header; `pd.concat` of an
empty list raises in the source, a case its callers never reach (the empty
guard ran first) and which is modelled as the empty table. -/
def concatTables : List Table → Table
  | [] => ⟨[], []⟩
  | t :: ts => ⟨t.header, ((t :: ts).map Table.rows).flatten⟩

/-- The View Filter (lines 82-87), producing `display_env` respectively
`display_growth` from one per-school dictionary and the sidebar selection:
for `"전체"` the tagged union of every school's rows, otherwise that one
school's tagged rows (`none` models the `KeyError` on an unknown label). -/
def filterTables (d : Dict) (sel : String) : Option Table :=
  if sel = "전체" then
    some (concatTables (d.map (fun p => assignSchool p.2 p.1)))
  else
    (dictLookup sel d).map (fun t => assignSchool t sel)

/-- In-memory state of one dashboard interaction: the cached per-school
dictionaries and the two working tables derived from them. -/
structure Session where
  env : Dict
  growth : Dict
  displayEnv : Option Table
  displayGrowth : Option Table
  deriving DecidableEq

/-- Re-derivation of the working tables on a filter change (lines 82-87):
only the two display fields are recomputed; the cached dictionaries are
read, never written. -/
def applyFilter (sel : String) (st : Session) : Session :=
  { st with
    displayEnv := filterTables st.env sel
    displayGrowth := filterTables st.growth sel }

/-- One row of the per-school summary table of the overview tab. -/
structure SummaryRow where
  school : String
  ecTarget : ℚ
  count : Nat
  color : String
  deriving DecidableEq

/-- Lines 111-118 generalized over the configuration list: one summary row
per configured school; `none` models the `KeyError` raised by
`growth_dict[s]` when a school has no growth table. -/
def summaryRowsAux (g : Dict) : List (String × SchoolInfo) → Option (List SummaryRow)
  | [] => some []
  | (s, info) :: rest =>
    match dictLookup s g, summaryRowsAux g rest with
    | some t, some l => some (⟨s, info.ecTarget, t.nrows, info.color⟩ :: l)
    | _, _ => none

/-- The overview tab's per-school summary table (lines 111-119). -/
def summaryRows (g : Dict) : Option (List SummaryRow) := summaryRowsAux g school_info

/-- Numeric content of a cell, when it has one. -/
def cellQ : Value → Option ℚ
  | .num q => some q
  | _ => none

/-- Mean of the numeric cells of column `c` (`df[c].mean()`): `none` models
the `KeyError` on a missing column and the `NaN` of an all-empty column;
non-numeric cells are skipped as pandas skips `NaN`s. -/
def colMean (t : Table) (c : String) : Option ℚ :=
  match colIdx c t.header with
  | none => none
  | some i =>
    let vals := t.rows.filterMap (fun r => (getIdx r i).bind cellQ)
    if vals.length = 0 then none else some (vals.sum / (vals.length : ℚ))

/-- Line 169 generalized: the association list
`{s: df['생중량(g)'].mean() for s, df in growth_dict.items()}`, defined when
every per-school mean is. -/
def meansListAux (c : String) : Dict → Option (List (String × ℚ))
  | [] => some []
  | (s, t) :: rest =>
    match colMean t c, meansListAux c rest with
    | some q, some ms => some ((s, q) :: ms)
    | _, _ => none

/-- The `avg_weights` dictionary of line 169. -/
def avgWeights (g : Dict) : Option (List (String × ℚ)) := meansListAux "생중량(g)" g

/-- The scan performed by Python `max(d, key=d.get)`: keep the current best
entry and replace it only on a strictly greater value, so the first maximal
entry wins. -/
def pyMaxScan : String × ℚ → List (String × ℚ) → String × ℚ
  | best, [] => best
  | best, p :: rest => pyMaxScan (if best.2 < p.2 then p else best) rest

/-- Python `max(avg_weights, key=avg_weights.get)` (line 170), returning the
winning key together with its value; `none` models the `ValueError` on an
empty dictionary. -/
def pyMaxEntry : List (String × ℚ) → Option (String × ℚ)
  | [] => none
  | p :: rest => some (pyMaxScan p rest)

/-- Lookup of a key in the means list (Python dict lookup
`avg_weights[best_school]`). -/
def lookupQ (s : String) : List (String × ℚ) → Option ℚ
  | [] => none
  | (k, q) :: rest => if k = s then some q else lookupQ s rest

/-- Content of the success banner of the growth tab. -/
structure GrowthBanner where
  school : String
  ecTarget : ℚ
  avgWeight : ℚ
  deriving DecidableEq

/-- Lines 168-173: compute the per-school mean fresh weights, take the
Python maximum, and report that school with its EC target and mean weight;
`none` models the uncaught failures (missing column, empty data, unknown
school key). -/
def growthBanner (g : Dict) : Option GrowthBanner :=
  match avgWeights g with
  | none => none
  | some ms =>
    match pyMaxEntry ms with
    | none => none
    | some best =>
      match lookupInfo best.1, lookupQ best.1 ms with
      | some info, some q => some ⟨best.1, info.ecTarget, q⟩
      | _, _ => none

/-- The four `st.metric` values of the overview tab (lines 100-108), from
the two working tables of the current selection.  The third conjunct of
line 108 is the hardcoded string `"2.0 (하늘고)"`. -/
structure OverviewMetrics where
  totalCount : Nat
  avgTemp : Option ℚ
  avgHum : Option ℚ
  optEcShown : String
  deriving DecidableEq

/-- Lines 100-108: the overview metrics derived from `display_growth` and
`display_env`. -/
def overviewMetrics (displayGrowth displayEnv : Table) : OverviewMetrics :=
  { totalCount := displayGrowth.nrows
    avgTemp := colMean displayEnv "temperature"
    avgHum := colMean displayEnv "humidity"
    optEcShown := "2.0 (하늘고)" }

/-- Rendering of one cell for the CSV export (`display_env.to_csv`,
line 163).  Numeric and datetime formatting details are irrelevant to the
round-trip claim, which holds the row count and column set fixed and mods
out value formatting. -/
def renderCell : Value → List Char
  | .str s => s.toList
  | .dt s => s.toList
  | .num q => (toString q.num ++ "/" ++ toString q.den).toList

/-- Join a list of pieces with a separator character (the writer side of
one CSV line, and of the line sequence). -/
def joinChar (c : Char) : List (List Char) → List Char
  | [] => []
  | [x] => x
  | x :: y :: rest => x ++ c :: joinChar c (y :: rest)

/-- Split a character list at every occurrence of the separator (the reader
side, as `pd.read_csv` splits unquoted fields and records). -/
def splitChar (c : Char) : List Char → List (List Char)
  | [] => [[]]
  | x :: xs =>
    match splitChar c xs with
    | [] => [[]]
    | y :: ys => if x = c then [] :: y :: ys else (x :: y) :: ys

/-- Line 163, `display_env.to_csv(index=False)`: the header line followed by
one line per row, newline separated, with pandas' trailing newline. -/
def toCsv (t : Table) : List Char :=
  joinChar '\n'
    (((joinChar ',' (t.header.map String.toList)) ::
      t.rows.map (fun r => joinChar ',' (r.map renderCell))) ++ [[]])

/-- A re-parsed CSV document: column names and rows, both as raw text. -/
structure RawTable where
  header : List (List Char)
  rows : List (List (List Char))
  deriving DecidableEq

/-- Re-parsing the comma-separated export, as `pd.read_csv` does on clean
(unquoted) content: split into lines, skip blank lines, take the first line
as the header and split every line at the commas. -/
def parseCsv (s : List Char) : RawTable :=
  match (splitChar '\n' s).filter (fun l => l ≠ []) with
  | [] => ⟨[], []⟩
  | h :: rest => ⟨splitChar ',' h, rest.map (splitChar ',')⟩

/-- Fields whose text the CSV writer emits verbatim (no quoting needed):
no separator, no record separator, no quote character.  This is exactly the
content on which `to_csv`'s minimal quoting writes the field unchanged, and
it covers every cell the dashboard exports (timestamps, numbers, school
labels). -/
def cleanChars (l : List Char) : Prop :=
  ',' ∉ l ∧ '\n' ∉ l ∧ '\"' ∉ l

instance (l : List Char) : Decidable (cleanChars l) := by
  unfold cleanChars; infer_instance

/-- A table all of whose column names and rendered cells are clean. -/
def CleanTable (t : Table) : Prop :=
  (∀ h ∈ t.header, cleanChars h.toList) ∧ ∀ r ∈ t.rows, ∀ v ∈ r, cleanChars (renderCell v)

instance (t : Table) : Decidable (CleanTable t) := by
  unfold CleanTable; infer_instance

/-- Whether the CSV branch of the file loop assigns this entry to label
`s`: the normalized name has the `.csv` extension, the bytes parse as a
table, and the label occurs in the normalized name. -/
def csvMatches (nfc : String → String) (s : String) (f : FileEntry) : Bool :=
  if strEndsWith (nfc f.name) ".csv" then
    match f.content with
    | .table _ => strContains (nfc f.name) s
    | .book _ => false
  else false

/-- Whether the XLSX branch of the file loop assigns this entry to label
`s`: the normalized name has the `.xlsx` extension, the bytes parse as a
workbook, and some normalized sheet name contains the label. -/
def xlsxMatches (nfc : String → String) (s : String) (f : FileEntry) : Bool :=
  if strEndsWith (nfc f.name) ".csv" then false
  else if strEndsWith (nfc f.name) ".xlsx" then
    match f.content with
    | .book sheets => sheets.any (fun p => strContains (nfc p.1) s)
    | .table _ => false
  else false

/-- Header produced by `df.assign(school=...)`, as a function of the input
header alone. -/
def assignHeader (hdr : List String) : List String :=
  match colIdx "school" hdr with
  | some _ => hdr
  | none => hdr ++ ["school"]

/-- Environmental CSV content with `n` sensor samples, the schema of
spec §6 (`time, temperature, humidity, pH, EC`). -/
def envTable (n : Nat) : Table :=
  ⟨["time", "temperature", "humidity", "ph", "ec"],
   List.replicate n [.str "2024-01-01 09:00:00", .num 20, .num 55, .num 6, .num 2]⟩

/-- Growth sheet content with `m` plant records, the schema of spec §6. -/
def growthSheet (m : Nat) : Table :=
  ⟨["생중량(g)", "잎 수(장)", "지상부 길이(mm)"],
   List.replicate m [.num 10, .num 5, .num 100]⟩

/-- The directory of the spec §8 scenario: one CSV per school with `n`
rows each, plus one spreadsheet with one sheet per school of `m` rows
each. -/
def scenarioFiles (n m : Nat) : List FileEntry :=
  (schoolLabels.map (fun s => ⟨s ++ "_환경데이터.csv", .table (envTable n)⟩)) ++
  [⟨"생육데이터.xlsx", .book (schoolLabels.map (fun s => (s ++ " 생육", growthSheet m)))⟩]

/-- A directory whose growth workbook lacks one school (no `동산고` sheet)
while both dictionaries still come out non-empty. -/
def partialFiles : List FileEntry :=
  (schoolLabels.map (fun s => ⟨s ++ "_환경데이터.csv", .table (envTable 1)⟩)) ++
  [⟨"생육데이터.xlsx",
    .book [("송도고", growthSheet 1), ("하늘고", growthSheet 1), ("아라고", growthSheet 1)]⟩]

/-- A two-row environmental table as loaded (time column already coerced). -/
def demoEnvA : Table :=
  ⟨["time", "temperature", "humidity", "ph", "ec"],
   [[.dt "2024-01-01 09:00:00", .num 20, .num 55, .num 6, .num 1],
    [.dt "2024-01-01 10:00:00", .num 21, .num 54, .num 6, .num 1]]⟩

/-- A one-row environmental table as loaded. -/
def demoEnvB : Table :=
  ⟨["time", "temperature", "humidity", "ph", "ec"],
   [[.dt "2024-01-01 09:00:00", .num 22, .num 50, .num 7, .num 2]]⟩

/-- A two-school environmental dictionary. -/
def demoEnvDict : Dict := [("송도고", demoEnvA), ("하늘고", demoEnvB)]

/-- A two-row growth table. -/
def demoGrowthA : Table :=
  ⟨["생중량(g)", "잎 수(장)", "지상부 길이(mm)"],
   [[.num 12, .num 6, .num 110], [.num 14, .num 7, .num 120]]⟩

/-- A one-row growth table with the largest mean fresh weight. -/
def demoGrowthB : Table :=
  ⟨["생중량(g)", "잎 수(장)", "지상부 길이(mm)"],
   [[.num 20, .num 8, .num 130]]⟩

/-- A two-school growth dictionary. -/
def demoGrowthDict : Dict := [("송도고", demoGrowthA), ("하늘고", demoGrowthB)]

/-- A small well-formed directory with two schools' CSVs and one workbook. -/
def demoFiles : List FileEntry :=
  [⟨"송도고_환경.csv", .table demoEnvA⟩,
   ⟨"하늘고_환경.csv", .table demoEnvB⟩,
   ⟨"생육.xlsx", .book [("송도고 생육", demoGrowthA), ("하늘고 생육", demoGrowthB)]⟩]

/-- A filtered environmental table as the CSV download sees it: one school
selected and tagged. -/
def demoFilteredEnv : Table := assignSchool demoEnvA "송도고"

theorem scenario_env_eval (n m : Nat) :
    (loadTables id (scenarioFiles n m)).1 =
      [("송도고", coerceTime (envTable n)), ("하늘고", coerceTime (envTable n)),
       ("아라고", coerceTime (envTable n)), ("동산고", coerceTime (envTable n))] := rfl

theorem scenario_growth_eval (n m : Nat) :
    (loadTables id (scenarioFiles n m)).2 =
      [("송도고", growthSheet m), ("하늘고", growthSheet m),
       ("아라고", growthSheet m), ("동산고", growthSheet m)] := rfl

theorem envTable_nrows (n : Nat) : (envTable n).nrows = n := by
  simp [envTable, Table.nrows]

theorem growthSheet_nrows (m : Nat) : (growthSheet m).nrows = m := by
  simp [growthSheet, Table.nrows]

theorem dictLookup_dictInsert (k s : String) (v : Table) (d : Dict) :
    dictLookup s (dictInsert k v d) = if k = s then some v else dictLookup s d := by
  induction d with
  | nil => simp [dictInsert, dictLookup]
  | cons p rest ih =>
    obtain ⟨k', v'⟩ := p
    by_cases h1 : k' = k
    · subst h1
      by_cases h2 : k' = s <;> simp [dictInsert, dictLookup, h2]
    · simp only [dictInsert, if_neg h1]
      by_cases h2 : k' = s
      · subst h2
        have hks : ¬ (k = k') := fun h => h1 h.symm
        simp [dictLookup, hks]
      · simp [dictLookup, h2, ih]

theorem dictLookup_isSome_iff (s : String) (d : Dict) :
    (dictLookup s d).isSome = true ↔ s ∈ keys d := by
  induction d with
  | nil => simp [dictLookup, keys]
  | cons p rest ih =>
    obtain ⟨k, v⟩ := p
    by_cases h : k = s
    · subst h
      simp [dictLookup, keys]
    · have hks : ¬ (s = k) := fun hh => h hh.symm
      simp [dictLookup, keys, h, hks, ih]

theorem dictLookup_mem (s : String) (d : Dict) (t : Table)
    (h : dictLookup s d = some t) : (s, t) ∈ d := by
  induction d with
  | nil => simp [dictLookup] at h
  | cons p rest ih =>
    obtain ⟨k, v⟩ := p
    simp only [dictLookup] at h
    by_cases hk : k = s
    · rw [if_pos hk] at h
      obtain rfl : v = t := Option.some.inj h
      subst hk
      exact List.mem_cons_self _ _
    · rw [if_neg hk] at h
      exact List.mem_cons_of_mem _ (ih h)

theorem labelFoldAux_cons (a : String) (ls : List String) (cond : String → Bool)
    (v : Table) (d : Dict) :
    labelFoldAux (a :: ls) cond v d =
      labelFoldAux ls cond v (if cond a then dictInsert a v d else d) := rfl

theorem labelFoldAux_lookup (labels : List String) (cond : String → Bool) (v : Table)
    (d : Dict) (s : String) :
    (dictLookup s (labelFoldAux labels cond v d)).isSome = true ↔
      (dictLookup s d).isSome = true ∨ (s ∈ labels ∧ cond s = true) := by
  induction labels generalizing d with
  | nil => simp [labelFoldAux]
  | cons a ls ih =>
    rw [labelFoldAux_cons, ih]
    by_cases hc : cond a
    · rw [if_pos hc, dictLookup_dictInsert]
      by_cases ha : a = s
      · subst ha
        simp [hc]
      · have ha' : ¬ (s = a) := fun h => ha h.symm
        simp [ha, ha', List.mem_cons]
    · rw [if_neg hc]
      constructor
      · rintro (h | ⟨h1, h2⟩)
        · exact Or.inl h
        · exact Or.inr ⟨List.mem_cons_of_mem _ h1, h2⟩
      · rintro (h | ⟨h1, h2⟩)
        · exact Or.inl h
        · rcases List.mem_cons.mp h1 with h3 | h3
          · subst h3
            exact absurd h2 hc
          · exact Or.inr ⟨h3, h2⟩

theorem sheetFold_cons (nfc : String → String) (p : String × Table)
    (ps : List (String × Table)) (d : Dict) :
    sheetFold nfc (p :: ps) d =
      sheetFold nfc ps (labelFold (fun sc => strContains (nfc p.1) sc) p.2 d) := rfl

theorem sheetFold_lookup (nfc : String → String) (sheets : List (String × Table))
    (d : Dict) (s : String) :
    (dictLookup s (sheetFold nfc sheets d)).isSome = true ↔
      (dictLookup s d).isSome = true ∨
        (s ∈ schoolLabels ∧ sheets.any (fun p => strContains (nfc p.1) s) = true) := by
  induction sheets generalizing d with
  | nil => simp [sheetFold]
  | cons p ps ih =>
    rw [sheetFold_cons, ih, labelFold, labelFoldAux_lookup]
    simp only [List.any_cons, Bool.or_eq_true]
    tauto

theorem loadStep_lookup (nfc : String → String) (acc : Dict × Dict) (f : FileEntry)
    (s : String) :
    ((dictLookup s (loadStep nfc acc f).1).isSome = true ↔
      (dictLookup s acc.1).isSome = true ∨ (s ∈ schoolLabels ∧ csvMatches nfc s f = true)) ∧
    ((dictLookup s (loadStep nfc acc f).2).isSome = true ↔
      (dictLookup s acc.2).isSome = true ∨ (s ∈ schoolLabels ∧ xlsxMatches nfc s f = true)) := by
  obtain ⟨name, content⟩ := f
  by_cases h1 : strEndsWith (nfc name) ".csv"
  · cases content with
    | table t =>
      constructor
      · rw [show (loadStep nfc acc ⟨name, .table t⟩).1 =
            labelFold (fun sc => strContains (nfc name) sc) (coerceTime t) acc.1 by
              simp [loadStep, h1]]
        rw [labelFold, labelFoldAux_lookup]
        simp [csvMatches, h1]
      · simp [loadStep, csvMatches, xlsxMatches, h1]
    | book sheets => simp [loadStep, csvMatches, xlsxMatches, h1]
  · by_cases h2 : strEndsWith (nfc name) ".xlsx"
    · cases content with
      | table t => simp [loadStep, csvMatches, xlsxMatches, h1, h2]
      | book sheets =>
        constructor
        · simp [loadStep, csvMatches, h1, h2]
        · rw [show (loadStep nfc acc ⟨name, .book sheets⟩).2 =
              sheetFold nfc sheets acc.2 by simp [loadStep, h1, h2]]
          rw [sheetFold_lookup]
          simp [xlsxMatches, h1, h2]
    · simp [loadStep, csvMatches, xlsxMatches, h1, h2]

set_option maxHeartbeats 1000000 in
theorem loadFold_lookup (nfc : String → String) (files : List FileEntry)
    (acc : Dict × Dict) (s : String) :
    ((dictLookup s (files.foldl (loadStep nfc) acc).1).isSome = true ↔
      (dictLookup s acc.1).isSome = true ∨
        (s ∈ schoolLabels ∧ files.any (csvMatches nfc s) = true)) ∧
    ((dictLookup s (files.foldl (loadStep nfc) acc).2).isSome = true ↔
      (dictLookup s acc.2).isSome = true ∨
        (s ∈ schoolLabels ∧ files.any (xlsxMatches nfc s) = true)) := by
  induction files generalizing acc with
  | nil => simp
  | cons f fs ih =>
    rw [List.foldl_cons]
    have h := loadStep_lookup nfc acc f s
    have h2 := ih (loadStep nfc acc f)
    constructor
    · rw [h2.1, h.1]
      clear h h2 ih
      simp only [List.any_cons, Bool.or_eq_true]
      tauto
    · rw [h2.2, h.2]
      clear h h2 ih
      simp only [List.any_cons, Bool.or_eq_true]
      tauto

theorem loadTables_lookup (nfc : String → String) (files : List FileEntry) (s : String) :
    ((dictLookup s (loadTables nfc files).1).isSome = true ↔
      s ∈ schoolLabels ∧ files.any (csvMatches nfc s) = true) ∧
    ((dictLookup s (loadTables nfc files).2).isSome = true ↔
      s ∈ schoolLabels ∧ files.any (xlsxMatches nfc s) = true) := by
  have h := loadFold_lookup nfc files ([], []) s
  simpa [loadTables, dictLookup] using h

theorem loadTables_keys_sub (nfc : String → String) (files : List FileEntry) :
    (∀ s ∈ keys (loadTables nfc files).1, s ∈ schoolLabels) ∧
    (∀ s ∈ keys (loadTables nfc files).2, s ∈ schoolLabels) := by
  constructor
  · intro s hs
    exact (((loadTables_lookup nfc files s).1).mp ((dictLookup_isSome_iff s _).mpr hs)).1
  · intro s hs
    exact (((loadTables_lookup nfc files s).2).mp ((dictLookup_isSome_iff s _).mpr hs)).1

theorem filter_nil_forall {α : Type} (p : α → Bool) (l : List α) (h : l.filter p = []) :
    ∀ a ∈ l, p a = false := by
  induction l with
  | nil => intro a ha; simp at ha
  | cons x xs ih =>
    rw [List.filter_cons] at h
    by_cases hx : p x = true
    · rw [if_pos hx] at h; simp at h
    · rw [if_neg hx] at h
      intro a ha
      rcases List.mem_cons.mp ha with heq | hmem
      · subst heq
        simpa using hx
      · exact ih h a hmem

theorem any_false_forall {α : Type} (p : α → Bool) (l : List α) (h : l.any p = false) :
    ∀ a ∈ l, p a = false := by
  induction l with
  | nil => intro a ha; simp at ha
  | cons x xs ih =>
    rw [List.any_cons] at h
    rw [Bool.or_eq_false_iff] at h
    intro a ha
    rcases List.mem_cons.mp ha with heq | hmem
    · subst heq
      exact h.1
    · exact ih h.2 a hmem

theorem labelFoldAux_lookup_val (labels : List String) (cond : String → Bool) (v : Table)
    (d : Dict) (s : String) :
    dictLookup s (labelFoldAux labels cond v d) =
      if s ∈ labels ∧ cond s = true then some v else dictLookup s d := by
  induction labels generalizing d with
  | nil => simp [labelFoldAux]
  | cons a ls ih =>
    rw [labelFoldAux_cons, ih]
    by_cases h1 : s ∈ ls ∧ cond s = true
    · rw [if_pos h1, if_pos ⟨List.mem_cons_of_mem _ h1.1, h1.2⟩]
    · rw [if_neg h1]
      by_cases hc : cond a = true
      · rw [if_pos hc, dictLookup_dictInsert]
        by_cases ha : a = s
        · subst ha
          rw [if_pos rfl, if_pos ⟨List.mem_cons_self _ _, hc⟩]
        · have hn : ¬(s ∈ a :: ls ∧ cond s = true) := by
            rintro ⟨hmem, hcs⟩
            rcases List.mem_cons.mp hmem with heq | hmem2
            · exact ha heq.symm
            · exact h1 ⟨hmem2, hcs⟩
          rw [if_neg ha, if_neg hn]
      · have hn : ¬(s ∈ a :: ls ∧ cond s = true) := by
          rintro ⟨hmem, hcs⟩
          rcases List.mem_cons.mp hmem with heq | hmem2
          · rw [heq] at hcs
            exact hc hcs
          · exact h1 ⟨hmem2, hcs⟩
        rw [if_neg hc, if_neg hn]

theorem sheetFold_lookup_nomatch (nfc : String → String) (sheets : List (String × Table))
    (s : String) :
    ∀ d : Dict, (∀ p ∈ sheets, strContains (nfc p.1) s = false) →
      dictLookup s (sheetFold nfc sheets d) = dictLookup s d := by
  induction sheets with
  | nil => intro d _; rfl
  | cons p ps ih =>
    intro d h
    rw [sheetFold_cons, ih _ (fun q hq => h q (List.mem_cons_of_mem _ hq)),
      labelFold, labelFoldAux_lookup_val]
    have hn : ¬(s ∈ schoolLabels ∧ strContains (nfc p.1) s = true) := by
      rintro ⟨_, hcs⟩
      rw [h p (List.mem_cons_self _ _)] at hcs
      exact Bool.false_ne_true hcs
    rw [if_neg hn]

theorem sheetFold_lookup_val (nfc : String → String) (sheets : List (String × Table))
    (s : String) (sh : String × Table) (hs : s ∈ schoolLabels) :
    ∀ d : Dict, sheets.filter (fun p => strContains (nfc p.1) s) = [sh] →
      dictLookup s (sheetFold nfc sheets d) = some sh.2 := by
  induction sheets with
  | nil => intro d h; simp at h
  | cons p ps ih =>
    intro d huniq
    rw [List.filter_cons] at huniq
    by_cases hp : strContains (nfc p.1) s = true
    · rw [if_pos hp] at huniq
      injection huniq with h1 h2
      subst h1
      rw [sheetFold_cons,
        sheetFold_lookup_nomatch nfc ps s _ (filter_nil_forall _ ps h2),
        labelFold, labelFoldAux_lookup_val, if_pos ⟨hs, hp⟩]
    · rw [if_neg hp] at huniq
      rw [sheetFold_cons]
      exact ih _ huniq

theorem loadStep_env_nomatch (nfc : String → String) (acc : Dict × Dict) (f : FileEntry)
    (s : String) (h : csvMatches nfc s f = false) :
    dictLookup s (loadStep nfc acc f).1 = dictLookup s acc.1 := by
  obtain ⟨name, content⟩ := f
  by_cases h1 : strEndsWith (nfc name) ".csv"
  · cases content with
    | table t =>
      have hsc : strContains (nfc name) s = false := by
        simpa [csvMatches, h1] using h
      rw [show (loadStep nfc acc ⟨name, .table t⟩).1 =
          labelFold (fun sc => strContains (nfc name) sc) (coerceTime t) acc.1 by
            simp [loadStep, h1]]
      rw [labelFold, labelFoldAux_lookup_val]
      have hn : ¬(s ∈ schoolLabels ∧ strContains (nfc name) s = true) := by
        rintro ⟨_, hcs⟩
        rw [hsc] at hcs
        exact Bool.false_ne_true hcs
      rw [if_neg hn]
    | book sheets => simp [loadStep, h1]
  · by_cases h2 : strEndsWith (nfc name) ".xlsx"
    · cases content with
      | table t => simp [loadStep, h1, h2]
      | book sheets =>
        rw [show (loadStep nfc acc ⟨name, .book sheets⟩).1 = acc.1 by simp [loadStep, h1, h2]]
    · simp [loadStep, h1, h2]

theorem loadStep_growth_nomatch (nfc : String → String) (acc : Dict × Dict) (f : FileEntry)
    (s : String) (h : xlsxMatches nfc s f = false) :
    dictLookup s (loadStep nfc acc f).2 = dictLookup s acc.2 := by
  obtain ⟨name, content⟩ := f
  by_cases h1 : strEndsWith (nfc name) ".csv"
  · cases content with
    | table t => simp [loadStep, h1]
    | book sheets => simp [loadStep, h1]
  · by_cases h2 : strEndsWith (nfc name) ".xlsx"
    · cases content with
      | table t => simp [loadStep, h1, h2]
      | book sheets =>
        have hany : sheets.any (fun p => strContains (nfc p.1) s) = false := by
          simpa [xlsxMatches, h1, h2] using h
        rw [show (loadStep nfc acc ⟨name, .book sheets⟩).2 = sheetFold nfc sheets acc.2 by
          simp [loadStep, h1, h2]]
        exact sheetFold_lookup_nomatch nfc sheets s acc.2 (any_false_forall _ sheets hany)
    · simp [loadStep, h1, h2]

theorem loadFold_env_nomatch (nfc : String → String) (files : List FileEntry) (s : String) :
    ∀ acc : Dict × Dict, (∀ f ∈ files, csvMatches nfc s f = false) →
      dictLookup s ((files.foldl (loadStep nfc) acc).1) = dictLookup s acc.1 := by
  induction files with
  | nil => intro acc _; rfl
  | cons f fs ih =>
    intro acc h
    rw [List.foldl_cons, ih _ (fun g hg => h g (List.mem_cons_of_mem _ hg))]
    exact loadStep_env_nomatch nfc acc f s (h f (List.mem_cons_self _ _))

theorem loadFold_growth_nomatch (nfc : String → String) (files : List FileEntry) (s : String) :
    ∀ acc : Dict × Dict, (∀ f ∈ files, xlsxMatches nfc s f = false) →
      dictLookup s ((files.foldl (loadStep nfc) acc).2) = dictLookup s acc.2 := by
  induction files with
  | nil => intro acc _; rfl
  | cons f fs ih =>
    intro acc h
    rw [List.foldl_cons, ih _ (fun g hg => h g (List.mem_cons_of_mem _ hg))]
    exact loadStep_growth_nomatch nfc acc f s (h f (List.mem_cons_self _ _))

theorem loadFold_env_val (nfc : String → String) (files : List FileEntry) (s : String)
    (name : String) (c : Table) (hs : s ∈ schoolLabels) :
    ∀ acc : Dict × Dict,
      files.filter (csvMatches nfc s) = [⟨name, FileContent.table c⟩] →
      dictLookup s ((files.foldl (loadStep nfc) acc).1) = some (coerceTime c) := by
  induction files with
  | nil => intro acc h; simp at h
  | cons f0 fs ih =>
    intro acc huniq
    rw [List.filter_cons] at huniq
    by_cases hm : csvMatches nfc s f0 = true
    · rw [if_pos hm] at huniq
      injection huniq with h1 h2
      subst h1
      rw [List.foldl_cons,
        loadFold_env_nomatch nfc fs s _ (filter_nil_forall _ fs h2)]
      by_cases h1e : strEndsWith (nfc name) ".csv"
      · have hsc : strContains (nfc name) s = true := by
          simpa [csvMatches, h1e] using hm
        rw [show (loadStep nfc acc ⟨name, FileContent.table c⟩).1 =
            labelFold (fun sc => strContains (nfc name) sc) (coerceTime c) acc.1 by
              simp [loadStep, h1e]]
        rw [labelFold, labelFoldAux_lookup_val, if_pos ⟨hs, hsc⟩]
      · exfalso
        simp [csvMatches, h1e] at hm
    · rw [if_neg hm] at huniq
      rw [List.foldl_cons]
      exact ih _ huniq

theorem loadFold_growth_val (nfc : String → String) (files : List FileEntry) (s : String)
    (name : String) (sheets : List (String × Table)) (sh : String × Table)
    (hs : s ∈ schoolLabels)
    (hsh : sheets.filter (fun p => strContains (nfc p.1) s) = [sh]) :
    ∀ acc : Dict × Dict,
      files.filter (xlsxMatches nfc s) = [⟨name, FileContent.book sheets⟩] →
      dictLookup s ((files.foldl (loadStep nfc) acc).2) = some sh.2 := by
  induction files with
  | nil => intro acc h; simp at h
  | cons f0 fs ih =>
    intro acc huniq
    rw [List.filter_cons] at huniq
    by_cases hm : xlsxMatches nfc s f0 = true
    · rw [if_pos hm] at huniq
      injection huniq with h1 h2
      subst h1
      rw [List.foldl_cons,
        loadFold_growth_nomatch nfc fs s _ (filter_nil_forall _ fs h2)]
      by_cases h1e : strEndsWith (nfc name) ".csv"
      · exfalso
        simp [xlsxMatches, h1e] at hm
      · by_cases h2e : strEndsWith (nfc name) ".xlsx"
        · rw [show (loadStep nfc acc ⟨name, FileContent.book sheets⟩).2 =
              sheetFold nfc sheets acc.2 by simp [loadStep, h1e, h2e]]
          exact sheetFold_lookup_val nfc sheets s sh hs acc.2 hsh
        · exfalso
          simp [xlsxMatches, h1e, h2e] at hm
    · rw [if_neg hm] at huniq
      rw [List.foldl_cons]
      exact ih _ huniq

theorem mem_keys_dictInsert (k s : String) (v : Table) (d : Dict) :
    s ∈ keys (dictInsert k v d) ↔ k = s ∨ s ∈ keys d := by
  rw [← dictLookup_isSome_iff, ← dictLookup_isSome_iff, dictLookup_dictInsert]
  by_cases h : k = s <;> simp [h]

theorem keys_dictInsert_nodup (k : String) (v : Table) (d : Dict)
    (h : (keys d).Nodup) : (keys (dictInsert k v d)).Nodup := by
  induction d with
  | nil => simp [dictInsert, keys]
  | cons p rest ih =>
    obtain ⟨k', v'⟩ := p
    simp only [keys, List.map_cons, List.nodup_cons] at h
    by_cases hk : k' = k
    · subst hk
      rw [show dictInsert k' v ((k', v') :: rest) = (k', v) :: rest by simp [dictInsert]]
      simp only [keys, List.map_cons, List.nodup_cons]
      exact h
    · simp only [dictInsert, if_neg hk, keys, List.map_cons, List.nodup_cons]
      constructor
      · intro hmem
        rcases (mem_keys_dictInsert k k' v rest).mp hmem with heq | hmem2
        · exact hk heq.symm
        · exact h.1 hmem2
      · exact ih h.2

theorem keys_labelFoldAux_nodup (labels : List String) (cond : String → Bool) (v : Table) :
    ∀ d : Dict, (keys d).Nodup → (keys (labelFoldAux labels cond v d)).Nodup := by
  induction labels with
  | nil => intro d h; exact h
  | cons a ls ih =>
    intro d h
    rw [labelFoldAux_cons]
    apply ih
    by_cases hc : cond a = true
    · rw [if_pos hc]
      exact keys_dictInsert_nodup a v d h
    · rw [if_neg hc]
      exact h

theorem keys_sheetFold_nodup (nfc : String → String) (sheets : List (String × Table)) :
    ∀ d : Dict, (keys d).Nodup → (keys (sheetFold nfc sheets d)).Nodup := by
  induction sheets with
  | nil => intro d h; exact h
  | cons p ps ih =>
    intro d h
    rw [sheetFold_cons]
    exact ih _ (keys_labelFoldAux_nodup _ _ _ d h)

theorem keys_loadStep_nodup (nfc : String → String) (acc : Dict × Dict) (f : FileEntry)
    (h1 : (keys acc.1).Nodup) (h2 : (keys acc.2).Nodup) :
    (keys (loadStep nfc acc f).1).Nodup ∧ (keys (loadStep nfc acc f).2).Nodup := by
  obtain ⟨name, content⟩ := f
  by_cases he1 : strEndsWith (nfc name) ".csv"
  · cases content with
    | table t =>
      constructor
      · rw [show (loadStep nfc acc ⟨name, .table t⟩).1 =
            labelFold (fun sc => strContains (nfc name) sc) (coerceTime t) acc.1 by
              simp [loadStep, he1]]
        exact keys_labelFoldAux_nodup _ _ _ _ h1
      · rw [show (loadStep nfc acc ⟨name, .table t⟩).2 = acc.2 by simp [loadStep, he1]]
        exact h2
    | book sheets =>
      rw [show loadStep nfc acc ⟨name, .book sheets⟩ = acc by simp [loadStep, he1]]
      exact ⟨h1, h2⟩
  · by_cases he2 : strEndsWith (nfc name) ".xlsx"
    · cases content with
      | table t =>
        rw [show loadStep nfc acc ⟨name, .table t⟩ = acc by simp [loadStep, he1, he2]]
        exact ⟨h1, h2⟩
      | book sheets =>
        constructor
        · rw [show (loadStep nfc acc ⟨name, .book sheets⟩).1 = acc.1 by
            simp [loadStep, he1, he2]]
          exact h1
        · rw [show (loadStep nfc acc ⟨name, .book sheets⟩).2 = sheetFold nfc sheets acc.2 by
            simp [loadStep, he1, he2]]
          exact keys_sheetFold_nodup _ _ _ h2
    · rw [show loadStep nfc acc ⟨name, content⟩ = acc by simp [loadStep, he1, he2]]
      exact ⟨h1, h2⟩

theorem keys_loadTables_nodup (nfc : String → String) (files : List FileEntry) :
    (keys (loadTables nfc files).1).Nodup ∧ (keys (loadTables nfc files).2).Nodup := by
  have hgen : ∀ acc : Dict × Dict, (keys acc.1).Nodup → (keys acc.2).Nodup →
      (keys ((files.foldl (loadStep nfc) acc)).1).Nodup ∧
      (keys ((files.foldl (loadStep nfc) acc)).2).Nodup := by
    induction files with
    | nil => intro acc h1 h2; exact ⟨h1, h2⟩
    | cons f fs ih =>
      intro acc h1 h2
      rw [List.foldl_cons]
      obtain ⟨h1n, h2n⟩ := keys_loadStep_nodup nfc acc f h1 h2
      exact ih _ h1n h2n
  exact hgen ([], []) (by simp [keys]) (by simp [keys])

theorem dictLookup_of_mem_nodup (d : Dict) (p : String × Table)
    (hnd : (keys d).Nodup) (hm : p ∈ d) : dictLookup p.1 d = some p.2 := by
  induction d with
  | nil => simp at hm
  | cons q rest ih =>
    obtain ⟨k0, v0⟩ := q
    simp only [keys, List.map_cons, List.nodup_cons] at hnd
    rcases List.mem_cons.mp hm with heq | hmem
    · subst heq
      simp [dictLookup]
    · by_cases hk : k0 = p.1
      · exfalso
        apply hnd.1
        rw [hk]
        exact List.mem_map_of_mem (fun r => r.1) hmem
      · simp only [dictLookup, if_neg hk]
        exact ih hnd.2 hmem

theorem keys_length_labels (d : Dict)
    (hnd : (keys d).Nodup)
    (hsub : ∀ s ∈ keys d, s ∈ schoolLabels)
    (hsup : ∀ s ∈ schoolLabels, s ∈ keys d) :
    d.length = 4 := by
  have h1 : (keys d).length ≤ schoolLabels.length :=
    (List.subperm_of_subset hnd (fun a ha => hsub a ha)).length_le
  have h2 : schoolLabels.length ≤ (keys d).length :=
    (List.subperm_of_subset (by decide) (fun a ha => hsup a ha)).length_le
  have h3 : d.length = (keys d).length := by simp [keys]
  have h4 : schoolLabels.length = 4 := rfl
  omega

theorem sum_nrows_const (d : Dict) (N : Nat) (h : ∀ p ∈ d, p.2.nrows = N) :
    (d.map (fun p => p.2.nrows)).sum = d.length * N := by
  induction d with
  | nil => simp
  | cons p rest ih =>
    simp only [List.map_cons, List.sum_cons, List.length_cons]
    rw [h p (List.mem_cons_self _ _), ih (fun q hq => h q (List.mem_cons_of_mem _ hq))]
    ring

theorem colIdx_lt_length (c : String) (hdr : List String) (i : Nat)
    (h : colIdx c hdr = some i) : i < hdr.length := by
  induction hdr generalizing i with
  | nil => simp [colIdx] at h
  | cons a rest ih =>
    simp only [colIdx] at h
    by_cases ha : a = c
    · rw [if_pos ha] at h
      obtain rfl : (0 : Nat) = i := Option.some.inj h
      simp
    · rw [if_neg ha] at h
      cases hrec : colIdx c rest with
      | none => rw [hrec] at h; simp at h
      | some j =>
        rw [hrec] at h
        obtain rfl : j + 1 = i := Option.some.inj h
        simpa using ih j hrec

theorem colIdx_append_self (c : String) (hdr : List String) (h : colIdx c hdr = none) :
    colIdx c (hdr ++ [c]) = some hdr.length := by
  induction hdr with
  | nil => simp [colIdx]
  | cons a rest ih =>
    simp only [colIdx] at h
    by_cases ha : a = c
    · rw [if_pos ha] at h; simp at h
    · rw [if_neg ha] at h
      cases hrec : colIdx c rest with
      | none =>
        have hstep : colIdx c ((a :: rest) ++ [c]) =
            Option.map (fun i => i + 1) (colIdx c (rest ++ [c])) := by
          simp [colIdx, if_neg ha]
        rw [hstep, ih hrec]
        rfl
      | some j => rw [hrec] at h; simp at h

theorem getIdx_setIdx (r : List Value) (i : Nat) (v : Value) (h : i < r.length) :
    getIdx (setIdx r i v) i = some v := by
  induction r generalizing i with
  | nil => simp at h
  | cons x rest ih =>
    cases i with
    | zero => rfl
    | succ n =>
      simp only [setIdx, getIdx]
      exact ih n (by simpa using h)

theorem getIdx_append_length (r : List Value) (v : Value) :
    getIdx (r ++ [v]) r.length = some v := by
  induction r with
  | nil => rfl
  | cons x rest ih => simpa [getIdx] using ih

theorem assignSchool_header (t : Table) (s : String) :
    (assignSchool t s).header = assignHeader t.header := by
  unfold assignSchool assignHeader
  cases colIdx "school" t.header <;> rfl

theorem assignSchool_nrows (t : Table) (s : String) :
    (assignSchool t s).nrows = t.nrows := by
  unfold assignSchool
  cases colIdx "school" t.header <;> simp [Table.nrows]

theorem assignSchool_tag (t : Table) (s : String) (hwf : t.WF) :
    ∀ r ∈ (assignSchool t s).rows,
      getCellBy (assignSchool t s).header r "school" = some (.str s) := by
  intro r hr
  unfold assignSchool at hr ⊢
  cases h : colIdx "school" t.header with
  | some i =>
    rw [h] at hr
    simp only [List.mem_map] at hr
    obtain ⟨r0, hr0, rfl⟩ := hr
    have hlen : i < r0.length := by
      rw [hwf r0 hr0]
      exact colIdx_lt_length _ _ _ h
    simp only [getCellBy, h, Option.bind]
    exact getIdx_setIdx r0 i _ hlen
  | none =>
    rw [h] at hr
    simp only [List.mem_map] at hr
    obtain ⟨r0, hr0, rfl⟩ := hr
    simp only [getCellBy, colIdx_append_self "school" t.header h, Option.bind]
    rw [← hwf r0 hr0]
    exact getIdx_append_length r0 _

theorem coerceTime_nrows (t : Table) : (coerceTime t).nrows = t.nrows := by
  unfold coerceTime
  cases colIdx "time" t.header <;> simp [Table.nrows]

theorem coerceTime_header (t : Table) : (coerceTime t).header = t.header := by
  unfold coerceTime
  cases colIdx "time" t.header <;> rfl

theorem concatTables_nrows (ts : List Table) :
    (concatTables ts).nrows = (ts.map Table.nrows).sum := by
  cases ts with
  | nil => rfl
  | cons t rest =>
    simp only [concatTables, Table.nrows, List.length_flatten, List.map_map]
    rfl

theorem map_assign_nrows (d : Dict) :
    (d.map fun p => (assignSchool p.2 p.1).nrows) = d.map fun p => p.2.nrows := by
  induction d with
  | nil => rfl
  | cons p rest ih => simp [assignSchool_nrows, ih]

theorem filterTables_all_nrows (d : Dict) :
    (filterTables d "전체").map Table.nrows =
      some ((d.map (fun p => p.2.nrows)).sum) := by
  rw [filterTables, if_pos rfl]
  have h1 := concatTables_nrows (d.map fun p => assignSchool p.2 p.1)
  rw [List.map_map] at h1
  have h2 : (d.map (Table.nrows ∘ fun p => assignSchool p.2 p.1)) =
      d.map fun p => p.2.nrows := by
    have := map_assign_nrows d
    simpa [Function.comp] using this
  rw [h2] at h1
  simp [h1]

theorem concatTables_rows (ts : List Table) :
    (concatTables ts).rows = (ts.map Table.rows).flatten := by
  cases ts <;> rfl

theorem mem_concat_assign (d : Dict) (r : List Value)
    (hr : r ∈ (concatTables (d.map fun p => assignSchool p.2 p.1)).rows) :
    ∃ p ∈ d, r ∈ (assignSchool p.2 p.1).rows := by
  rw [concatTables_rows, List.map_map, List.mem_flatten] at hr
  obtain ⟨rows0, hrows0, hrrows⟩ := hr
  obtain ⟨p, hp, heq⟩ := List.mem_map.mp hrows0
  refine ⟨p, hp, ?_⟩
  rw [← heq] at hrrows
  simpa using hrrows

theorem filter_rows_tagged (d : Dict) (sel : String) (H : List String)
    (hk : ∀ s ∈ keys d, s ∈ schoolLabels)
    (hwf : ∀ p ∈ d, Table.WF p.2) (hH : ∀ p ∈ d, p.2.header = H)
    (hsel : sel = "전체" ∨ sel ∈ schoolLabels) :
    ∀ t, filterTables d sel = some t → ∀ r ∈ t.rows,
      ∃ s ∈ schoolLabels, getCellBy t.header r "school" = some (.str s) := by
  intro t ht r hr
  by_cases hall : sel = "전체"
  · subst hall
    rw [filterTables, if_pos rfl] at ht
    obtain rfl : concatTables (d.map fun p => assignSchool p.2 p.1) = t := Option.some.inj ht
    obtain ⟨p, hp, hrp⟩ := mem_concat_assign d r hr
    have htag := assignSchool_tag p.2 p.1 (hwf p hp) r hrp
    have hhd : (assignSchool p.2 p.1).header =
        (concatTables (d.map fun q => assignSchool q.2 q.1)).header := by
      cases d with
      | nil => simp at hp
      | cons p0 rest =>
        have h1 : (concatTables ((p0 :: rest).map fun q => assignSchool q.2 q.1)).header
            = (assignSchool p0.2 p0.1).header := rfl
        rw [h1, assignSchool_header, assignSchool_header, hH p hp,
          hH p0 (List.mem_cons_self _ _)]
    refine ⟨p.1, hk p.1 (List.mem_map_of_mem _ hp), ?_⟩
    rw [← hhd]
    exact htag
  · rw [filterTables, if_neg hall] at ht
    cases hl : dictLookup sel d with
    | none => rw [hl] at ht; simp at ht
    | some t0 =>
      rw [hl] at ht
      obtain rfl : assignSchool t0 sel = t := Option.some.inj (by simpa using ht)
      have hmem := dictLookup_mem sel d t0 hl
      exact ⟨sel, hsel.resolve_left hall, assignSchool_tag t0 sel (hwf _ hmem) r hr⟩

theorem splitChar_ne_nil (c : Char) (l : List Char) : splitChar c l ≠ [] := by
  induction l with
  | nil => simp [splitChar]
  | cons x rest ih =>
    simp only [splitChar]
    cases hs : splitChar c rest with
    | nil => simp
    | cons y ys => by_cases hx : x = c <;> simp [hx]

theorem splitChar_no_sep (c : Char) (xs : List Char) (h : c ∉ xs) :
    splitChar c xs = [xs] := by
  induction xs with
  | nil => rfl
  | cons x rest ih =>
    have hx : ¬ (x = c) := fun hh => h (hh ▸ List.mem_cons_self _ _)
    have hrest : c ∉ rest := fun hh => h (List.mem_cons_of_mem _ hh)
    simp only [splitChar, ih hrest]
    rw [if_neg hx]

theorem splitChar_append (c : Char) (xs ys : List Char) (h : c ∉ xs) :
    splitChar c (xs ++ c :: ys) = xs :: splitChar c ys := by
  induction xs with
  | nil =>
    simp only [List.nil_append, splitChar]
    cases hs : splitChar c ys with
    | nil => exact absurd hs (splitChar_ne_nil c ys)
    | cons y ys' => simp
  | cons x xs2 ih =>
    have hx : ¬ (x = c) := fun hh => h (hh ▸ List.mem_cons_self _ _)
    have hxs : c ∉ xs2 := fun hh => h (List.mem_cons_of_mem _ hh)
    have hstep : splitChar c ((x :: xs2) ++ c :: ys) =
        match splitChar c (xs2 ++ c :: ys) with
        | [] => [[]]
        | y :: ys' => if x = c then [] :: y :: ys' else (x :: y) :: ys' := rfl
    rw [hstep, ih hxs]
    simp only [if_neg hx]

theorem splitChar_joinChar (c : Char) (ps : List (List Char)) (hne : ps ≠ [])
    (h : ∀ p ∈ ps, c ∉ p) : splitChar c (joinChar c ps) = ps := by
  induction ps with
  | nil => exact absurd rfl hne
  | cons p ps ih =>
    cases ps with
    | nil => exact splitChar_no_sep c p (h p (List.mem_cons_self _ _))
    | cons q qs =>
      have hj : joinChar c (p :: q :: qs) = p ++ c :: joinChar c (q :: qs) := rfl
      rw [hj, splitChar_append c p _ (h p (List.mem_cons_self _ _))]
      rw [ih (by simp) (fun x hx => h x (List.mem_cons_of_mem _ hx))]

theorem mem_joinChar (c : Char) (ps : List (List Char)) (x : Char)
    (hx : x ∈ joinChar c ps) : x = c ∨ ∃ p ∈ ps, x ∈ p := by
  induction ps with
  | nil => simp [joinChar] at hx
  | cons p ps ih =>
    cases ps with
    | nil => exact Or.inr ⟨p, List.mem_cons_self _ _, hx⟩
    | cons q qs =>
      rw [show joinChar c (p :: q :: qs) = p ++ c :: joinChar c (q :: qs) from rfl] at hx
      rcases List.mem_append.mp hx with h1 | h1
      · exact Or.inr ⟨p, List.mem_cons_self _ _, h1⟩
      · rcases List.mem_cons.mp h1 with rfl | h2
        · exact Or.inl rfl
        · rcases ih h2 with h3 | ⟨r, hr, hxr⟩
          · exact Or.inl h3
          · exact Or.inr ⟨r, List.mem_cons_of_mem _ hr, hxr⟩

theorem joinChar_ne_nil_of_two (c : Char) (p q : List Char) (qs : List (List Char)) :
    joinChar c (p :: q :: qs) ≠ [] := by
  rw [show joinChar c (p :: q :: qs) = p ++ c :: joinChar c (q :: qs) from rfl]
  simp

theorem joinChar_ne_nil_of_len (c : Char) (ps : List (List Char)) (h : 2 ≤ ps.length) :
    joinChar c ps ≠ [] := by
  cases ps with
  | nil => simp at h
  | cons p ps2 =>
    cases ps2 with
    | nil => simp at h
    | cons q qs => exact joinChar_ne_nil_of_two c p q qs

theorem pyMaxScan_spec (l : List (String × ℚ)) (best : String × ℚ) :
    (pyMaxScan best l = best ∨ pyMaxScan best l ∈ l) ∧
    best.2 ≤ (pyMaxScan best l).2 ∧ ∀ p ∈ l, p.2 ≤ (pyMaxScan best l).2 := by
  induction l generalizing best with
  | nil => exact ⟨Or.inl rfl, le_refl _, by simp⟩
  | cons p ps ih =>
    simp only [pyMaxScan]
    by_cases h : best.2 < p.2
    · rw [if_pos h]
      obtain ⟨h1, h2, h3⟩ := ih p
      refine ⟨?_, le_trans (le_of_lt h) h2, ?_⟩
      · rcases h1 with h1 | h1
        · exact Or.inr (by rw [h1]; exact List.mem_cons_self _ _)
        · exact Or.inr (List.mem_cons_of_mem _ h1)
      · intro q hq
        rcases List.mem_cons.mp hq with rfl | hq2
        · exact h2
        · exact h3 q hq2
    · rw [if_neg h]
      obtain ⟨h1, h2, h3⟩ := ih best
      refine ⟨?_, h2, ?_⟩
      · rcases h1 with h1 | h1
        · exact Or.inl h1
        · exact Or.inr (List.mem_cons_of_mem _ h1)
      · intro q hq
        rcases List.mem_cons.mp hq with rfl | hq2
        · exact le_trans (le_of_not_lt h) h2
        · exact h3 q hq2

theorem pyMaxEntry_spec (l : List (String × ℚ)) (e : String × ℚ)
    (h : pyMaxEntry l = some e) : e ∈ l ∧ ∀ p ∈ l, p.2 ≤ e.2 := by
  cases l with
  | nil => simp [pyMaxEntry] at h
  | cons p ps =>
    obtain rfl : pyMaxScan p ps = e := Option.some.inj h
    obtain ⟨h1, h2, h3⟩ := pyMaxScan_spec ps p
    constructor
    · rcases h1 with h1 | h1
      · rw [h1]; exact List.mem_cons_self _ _
      · exact List.mem_cons_of_mem _ h1
    · intro q hq
      rcases List.mem_cons.mp hq with rfl | hq2
      · exact h2
      · exact h3 q hq2

theorem meansListAux_mem (c : String) (g : Dict) (ms : List (String × ℚ))
    (h : meansListAux c g = some ms) :
    ∀ s t, (s, t) ∈ g → ∀ q, colMean t c = some q → (s, q) ∈ ms := by
  induction g generalizing ms with
  | nil =>
    intro s t hst
    simp at hst
  | cons p rest ih =>
    obtain ⟨s0, t0⟩ := p
    simp only [meansListAux] at h
    cases hm : colMean t0 c with
    | none => rw [hm] at h; simp at h
    | some q0 =>
      rw [hm] at h
      cases hrec : meansListAux c rest with
      | none => rw [hrec] at h; simp at h
      | some ms0 =>
        rw [hrec] at h
        obtain rfl : (s0, q0) :: ms0 = ms := Option.some.inj h
        intro s t hst q hq
        rcases List.mem_cons.mp hst with heq | hmem
        · have hs : s = s0 := congrArg Prod.fst heq
          have ht : t = t0 := congrArg Prod.snd heq
          subst hs; subst ht
          rw [hm] at hq
          obtain rfl : q0 = q := Option.some.inj hq
          exact List.mem_cons_self _ _
        · exact List.mem_cons_of_mem _ (ih ms0 hrec s t hmem q hq)

theorem meansListAux_keys (c : String) (g : Dict) (ms : List (String × ℚ))
    (h : meansListAux c g = some ms) : ms.map (fun p => p.1) = keys g := by
  induction g generalizing ms with
  | nil =>
    obtain rfl : ([] : List (String × ℚ)) = ms := Option.some.inj h
    rfl
  | cons p rest ih =>
    obtain ⟨s0, t0⟩ := p
    simp only [meansListAux] at h
    cases hm : colMean t0 c with
    | none => rw [hm] at h; simp at h
    | some q0 =>
      rw [hm] at h
      cases hrec : meansListAux c rest with
      | none => rw [hrec] at h; simp at h
      | some ms0 =>
        rw [hrec] at h
        obtain rfl : (s0, q0) :: ms0 = ms := Option.some.inj h
        have hrec2 : ms0.map (fun p => p.1) = keys rest := ih ms0 hrec
        simp only [List.map_cons, keys] at hrec2 ⊢
        rw [hrec2]

theorem lookupQ_of_mem_nodup (ms : List (String × ℚ)) (k : String) (q : ℚ)
    (hnd : (ms.map (fun p => p.1)).Nodup) (hm : (k, q) ∈ ms) :
    lookupQ k ms = some q := by
  induction ms with
  | nil => simp at hm
  | cons p rest ih =>
    obtain ⟨k0, q0⟩ := p
    simp only [List.map_cons, List.nodup_cons] at hnd
    rcases List.mem_cons.mp hm with heq | hmem
    · have hk : k = k0 := congrArg Prod.fst heq
      have hq : q = q0 := congrArg Prod.snd heq
      subst hk; subst hq
      simp [lookupQ]
    · by_cases hk : k0 = k
      · subst hk
        exact absurd (List.mem_map_of_mem (fun p => p.1) hmem) hnd.1
      · simp only [lookupQ, if_neg hk]
        exact ih hnd.2 hmem

theorem summaryRowsAux_missing (g : Dict) (infos : List (String × SchoolInfo)) (s : String)
    (hs : s ∈ infos.map (fun p => p.1)) (hl : dictLookup s g = none) :
    summaryRowsAux g infos = none := by
  induction infos with
  | nil => simp at hs
  | cons p ps ih =>
    obtain ⟨k, info⟩ := p
    simp only [List.map_cons, List.mem_cons] at hs
    rcases hs with rfl | hs2
    · simp [summaryRowsAux, hl]
    · simp only [summaryRowsAux, ih hs2]
      cases dictLookup k g <;> rfl

/-- C1 is refuted here: the file name `송도고하늘고.csv` contains two school
labels, and because the inner label loop of `load_data` has no `break`, the
file is recorded under BOTH labels — not only under the first matching
label in enumeration order as the claim states. -/
theorem c1_counterexample :
    keys (loadTables id [⟨"송도고하늘고.csv", .table (envTable 1)⟩]).1
      = ["송도고", "하늘고"] := rfl

/-- C1 (amended): a file (or sheet) is assigned to entity `E` exactly when
`E` is one of the four fixed labels and `E`'s label is a literal substring
of the NFC-normalized file name (or of some normalized sheet name for the
workbook branch); when several labels match, the file or sheet is recorded
under every matching label, not only the first. -/
theorem c1_amended_label_matching (nfc : String → String) (files : List FileEntry)
    (s : String) :
    ((dictLookup s (loadTables nfc files).1).isSome = true ↔
      s ∈ schoolLabels ∧ files.any (csvMatches nfc s) = true) ∧
    ((dictLookup s (loadTables nfc files).2).isSome = true ↔
      s ∈ schoolLabels ∧ files.any (xlsxMatches nfc s) = true) :=
  loadTables_lookup nfc files s

/-- Witness for C1 (amended) at a concrete directory: the second label
of `송도고하늘고.csv` is assigned because it is a substring of the name. -/
theorem c1_amended_label_matching_witness :
    (dictLookup "하늘고"
      (loadTables id [⟨"송도고하늘고.csv", .table (envTable 1)⟩]).1).isSome = true :=
  ((c1_amended_label_matching id [⟨"송도고하늘고.csv", .table (envTable 1)⟩] "하늘고").1).mpr
    (by decide)

/-- C2: when the `data` directory does not exist, `load_data` reports the
error (`st.error`) and yields the no-data pair `(None, None)`, and the
session halts right there: unpacking that 2-tuple into three names raises,
so no table processing happens in the session. -/
theorem c2_missing_dir_halts (nfc : String → String) :
    dirErrorShown none = true ∧ load_data nfc none = .errPair ∧
    sessionLoad nfc none = .halted .unpackMismatch :=
  ⟨rfl, rfl, rfl⟩

/-- C3 is refuted here: `partialFiles` loads four environmental tables but
only three growth tables (no `동산고` sheet), yet the post-load guard only
checks emptiness, so the session proceeds and the View Filter runs —
incomplete per-entity data does not halt the session before filtering. -/
theorem c3_counterexample :
    dictLookup "동산고" (loadTables id partialFiles).2 = none ∧
    sessionLoad id (some partialFiles) =
      .proceed (loadTables id partialFiles).1 (loadTables id partialFiles).2 ∧
    (filterTables (loadTables id partialFiles).2 "전체").isSome = true :=
  ⟨rfl, rfl, rfl⟩

/-- C3 (amended): the post-load guard reports and halts the session exactly
when one of the two per-entity dictionaries is empty; merely incomplete but
non-empty data passes the guard, and a missing school is only hit later, as
an uncaught lookup failure when the overview tab's per-school summary table
is rendered (after filtering has already run). -/
theorem c3_amended_guard (nfc : String → String) (files : List FileEntry) :
    (sessionLoad nfc (some files) = .halted .emptyDataGuard ↔
      ((loadTables nfc files).1.isEmpty = true ∨
        (loadTables nfc files).2.isEmpty = true)) ∧
    (∀ s ∈ schoolLabels, dictLookup s (loadTables nfc files).2 = none →
      summaryRows (loadTables nfc files).2 = none) := by
  have hses : sessionLoad nfc (some files) =
      if (loadTables nfc files).1.isEmpty || (loadTables nfc files).2.isEmpty
      then .halted .emptyDataGuard
      else .proceed (loadTables nfc files).1 (loadTables nfc files).2 := rfl
  constructor
  · rw [hses]
    by_cases he : ((loadTables nfc files).1.isEmpty ||
        (loadTables nfc files).2.isEmpty) = true
    · rw [if_pos he]
      simp only [Bool.or_eq_true] at he
      exact ⟨fun _ => he, fun _ => rfl⟩
    · rw [if_neg he]
      simp only [Bool.or_eq_true] at he
      constructor
      · intro hcon
        exact absurd hcon (by simp)
      · intro h
        exact absurd h he
  · intro s hs hnone
    exact summaryRowsAux_missing _ school_info s hs hnone

/-- Witness for C3 (amended): at the incomplete directory the summary table
rendering fails, and the guard did not fire. -/
theorem c3_amended_guard_witness :
    summaryRows (loadTables id partialFiles).2 = none ∧
    ¬ sessionLoad id (some partialFiles) = .halted .emptyDataGuard := by
  have h := c3_amended_guard id partialFiles
  constructor
  · exact h.2 "동산고" (by decide) (by decide)
  · intro hcon
    have := h.1.mp hcon
    revert this
    decide

/-- C7: re-deriving the working tables on a filter change never mutates the
cached per-school dictionaries: for every selection both mappings are
unchanged (same tables, same rows, same columns, same values), and the two
outputs are exactly the derived tagged copies produced by
`df.assign(school=...)` and `pd.concat`. -/
theorem c7_filter_does_not_mutate (st : Session) : ∀ sel : String,
    (applyFilter sel st).env = st.env ∧
    (applyFilter sel st).growth = st.growth ∧
    (applyFilter sel st).displayEnv = filterTables st.env sel ∧
    (applyFilter sel st).displayGrowth = filterTables st.growth sel ∧
    (applyFilter "전체" st).displayEnv =
      some (concatTables (st.env.map fun p => assignSchool p.2 p.1)) :=
  fun _ => ⟨rfl, rfl, rfl, rfl, rfl⟩

/-- C10: the overview tab's `최적 EC (도출)` metric is the hardcoded string
`"2.0 (하늘고)"`: for any two loaded datasets the displayed metric is
identical, i.e. it does not depend on the loaded data at all. -/
theorem c10_optimal_ec_metric_constant (dg1 de1 dg2 de2 : Table) :
    (overviewMetrics dg1 de1).optEcShown = (overviewMetrics dg2 de2).optEcShown ∧
    (overviewMetrics dg1 de1).optEcShown = "2.0 (하늘고)" :=
  ⟨rfl, rfl⟩

/-- C4: the View Filter row-count law, for any pair of loaded non-empty
per-school dictionaries (the emptiness guard ran before this code, and
`pd.concat` of an empty list would raise) and any selection: for `"전체"`
the output row count of each table is the sum of that mapping's per-school
row counts, and for a specific school it is exactly that school's row
count — no rows dropped or duplicated. -/
theorem c4_filter_rowcount_law (env growth : Dict) (sel : String)
    (_henv : env ≠ []) (_hgrowth : growth ≠ []) :
    (sel = "전체" →
      (filterTables env sel).map Table.nrows =
        some ((env.map (fun p => p.2.nrows)).sum) ∧
      (filterTables growth sel).map Table.nrows =
        some ((growth.map (fun p => p.2.nrows)).sum)) ∧
    (sel ≠ "전체" →
      (∀ t, dictLookup sel env = some t →
        (filterTables env sel).map Table.nrows = some t.nrows) ∧
      (∀ t, dictLookup sel growth = some t →
        (filterTables growth sel).map Table.nrows = some t.nrows)) := by
  have hall : ∀ d : Dict,
      (filterTables d "전체").map Table.nrows =
        some ((d.map (fun p => p.2.nrows)).sum) :=
    fun d => filterTables_all_nrows d
  have hone : ∀ (d : Dict) (t : Table), sel ≠ "전체" → dictLookup sel d = some t →
      (filterTables d sel).map Table.nrows = some t.nrows := by
    intro d t hne ht
    rw [filterTables, if_neg hne, ht]
    simp [assignSchool_nrows]
  constructor
  · intro hsel
    subst hsel
    exact ⟨hall env, hall growth⟩
  · intro hne
    exact ⟨fun t ht => hone env t hne ht, fun t ht => hone growth t hne ht⟩

/-- Witness for C4 at concrete dictionaries: `"전체"` gives 2 + 1 = 3
environmental rows, and selecting `하늘고` gives exactly its 1 growth
row. -/
theorem c4_filter_rowcount_law_witness :
    (filterTables demoEnvDict "전체").map Table.nrows = some 3 ∧
    (filterTables demoGrowthDict "하늘고").map Table.nrows = some 1 := by
  have h := c4_filter_rowcount_law demoEnvDict demoGrowthDict "전체"
    (by decide) (by decide)
  have h2 := c4_filter_rowcount_law demoEnvDict demoGrowthDict "하늘고"
    (by decide) (by decide)
  constructor
  · rw [(h.1 rfl).1]
    rfl
  · rw [(h2.2 (by decide)).2 demoGrowthB rfl]
    rfl

/-- C5: for every valid input directory of the spec §8 shape and every
name normalization — for each of the four schools exactly one directory
entry matches it as a tabular-text file, holding a table of `N` rows, and
exactly one entry matches it as a spreadsheet, with exactly one matching
sheet of `M` rows — loading yields exactly four entries in the
environmental mapping and exactly four entries in the growth mapping (one
per school), with tables of `N` resp. `M` rows, and selecting `"전체"`
yields a `4 * N` row environmental table and a `4 * M` row growth table. -/
theorem c5_scenario (nfc : String → String) (files : List FileEntry) (N M : Nat)
    (hcsv : ∀ s ∈ schoolLabels, ∃ name c,
      files.filter (csvMatches nfc s) = [⟨name, FileContent.table c⟩] ∧ c.nrows = N)
    (hxlsx : ∀ s ∈ schoolLabels, ∃ name sheets sh,
      files.filter (xlsxMatches nfc s) = [⟨name, FileContent.book sheets⟩] ∧
      sheets.filter (fun p => strContains (nfc p.1) s) = [sh] ∧ sh.2.nrows = M) :
    (loadTables nfc files).1.length = 4 ∧
    (loadTables nfc files).2.length = 4 ∧
    (∀ s ∈ schoolLabels, s ∈ keys (loadTables nfc files).1) ∧
    (∀ s ∈ schoolLabels, s ∈ keys (loadTables nfc files).2) ∧
    (∀ p ∈ (loadTables nfc files).1, p.2.nrows = N) ∧
    (∀ p ∈ (loadTables nfc files).2, p.2.nrows = M) ∧
    (filterTables (loadTables nfc files).1 "전체").map Table.nrows = some (4 * N) ∧
    (filterTables (loadTables nfc files).2 "전체").map Table.nrows = some (4 * M) := by
  obtain ⟨hnd1, hnd2⟩ := keys_loadTables_nodup nfc files
  obtain ⟨hk1, hk2⟩ := loadTables_keys_sub nfc files
  have henv : ∀ s ∈ schoolLabels, ∃ t,
      dictLookup s (loadTables nfc files).1 = some t ∧ t.nrows = N := by
    intro s hs
    obtain ⟨name, c, hu, hn⟩ := hcsv s hs
    refine ⟨coerceTime c, loadFold_env_val nfc files s name c hs ([], []) hu, ?_⟩
    rw [coerceTime_nrows]
    exact hn
  have hgr : ∀ s ∈ schoolLabels, ∃ t,
      dictLookup s (loadTables nfc files).2 = some t ∧ t.nrows = M := by
    intro s hs
    obtain ⟨name, sheets, sh, hu, hshu, hm⟩ := hxlsx s hs
    exact ⟨sh.2, loadFold_growth_val nfc files s name sheets sh hs hshu ([], []) hu, hm⟩
  have hsup1 : ∀ s ∈ schoolLabels, s ∈ keys (loadTables nfc files).1 := by
    intro s hs
    obtain ⟨t, ht, _⟩ := henv s hs
    refine (dictLookup_isSome_iff s _).mp ?_
    rw [ht]
    rfl
  have hsup2 : ∀ s ∈ schoolLabels, s ∈ keys (loadTables nfc files).2 := by
    intro s hs
    obtain ⟨t, ht, _⟩ := hgr s hs
    refine (dictLookup_isSome_iff s _).mp ?_
    rw [ht]
    rfl
  have hrows1 : ∀ p ∈ (loadTables nfc files).1, p.2.nrows = N := by
    intro p hp
    have hpk : p.1 ∈ schoolLabels := hk1 p.1 (List.mem_map_of_mem _ hp)
    obtain ⟨t, ht, hn⟩ := henv p.1 hpk
    have hlk := dictLookup_of_mem_nodup _ p hnd1 hp
    rw [hlk] at ht
    obtain rfl : p.2 = t := Option.some.inj ht
    exact hn
  have hrows2 : ∀ p ∈ (loadTables nfc files).2, p.2.nrows = M := by
    intro p hp
    have hpk : p.1 ∈ schoolLabels := hk2 p.1 (List.mem_map_of_mem _ hp)
    obtain ⟨t, ht, hn⟩ := hgr p.1 hpk
    have hlk := dictLookup_of_mem_nodup _ p hnd2 hp
    rw [hlk] at ht
    obtain rfl : p.2 = t := Option.some.inj ht
    exact hn
  have hlen1 : (loadTables nfc files).1.length = 4 :=
    keys_length_labels _ hnd1 hk1 hsup1
  have hlen2 : (loadTables nfc files).2.length = 4 :=
    keys_length_labels _ hnd2 hk2 hsup2
  refine ⟨hlen1, hlen2, hsup1, hsup2, hrows1, hrows2, ?_, ?_⟩
  · rw [filterTables_all_nrows, sum_nrows_const _ N hrows1, hlen1]
  · rw [filterTables_all_nrows, sum_nrows_const _ M hrows2, hlen2]

/-- Witness for C5 at the concrete scenario directory with 2-row CSVs and
3-row sheets: four entries per mapping, and filtering yields 8 and 12
rows. -/
theorem c5_scenario_witness :
    (loadTables id (scenarioFiles 2 3)).1.length = 4 ∧
    (loadTables id (scenarioFiles 2 3)).2.length = 4 ∧
    (filterTables (loadTables id (scenarioFiles 2 3)).1 "전체").map Table.nrows
      = some 8 ∧
    (filterTables (loadTables id (scenarioFiles 2 3)).2 "전체").map Table.nrows
      = some 12 := by
  have hcsv : ∀ s ∈ schoolLabels, ∃ name c,
      (scenarioFiles 2 3).filter (csvMatches id s) =
        [⟨name, FileContent.table c⟩] ∧ c.nrows = 2 := by
    intro s hs
    simp only [schoolLabels, school_info, List.map_cons, List.map_nil, List.mem_cons,
      List.not_mem_nil, or_false] at hs
    rcases hs with rfl | rfl | rfl | rfl
    · exact ⟨"송도고_환경데이터.csv", envTable 2, by decide, by decide⟩
    · exact ⟨"하늘고_환경데이터.csv", envTable 2, by decide, by decide⟩
    · exact ⟨"아라고_환경데이터.csv", envTable 2, by decide, by decide⟩
    · exact ⟨"동산고_환경데이터.csv", envTable 2, by decide, by decide⟩
  have hxlsx : ∀ s ∈ schoolLabels, ∃ name sheets sh,
      (scenarioFiles 2 3).filter (xlsxMatches id s) =
        [⟨name, FileContent.book sheets⟩] ∧
      sheets.filter (fun p => strContains (id p.1) s) = [sh] ∧ sh.2.nrows = 3 := by
    intro s hs
    simp only [schoolLabels, school_info, List.map_cons, List.map_nil, List.mem_cons,
      List.not_mem_nil, or_false] at hs
    rcases hs with rfl | rfl | rfl | rfl
    · exact ⟨"생육데이터.xlsx", schoolLabels.map (fun q => (q ++ " 생육", growthSheet 3)),
        ("송도고 생육", growthSheet 3), by decide, by decide, by decide⟩
    · exact ⟨"생육데이터.xlsx", schoolLabels.map (fun q => (q ++ " 생육", growthSheet 3)),
        ("하늘고 생육", growthSheet 3), by decide, by decide, by decide⟩
    · exact ⟨"생육데이터.xlsx", schoolLabels.map (fun q => (q ++ " 생육", growthSheet 3)),
        ("아라고 생육", growthSheet 3), by decide, by decide, by decide⟩
    · exact ⟨"생육데이터.xlsx", schoolLabels.map (fun q => (q ++ " 생육", growthSheet 3)),
        ("동산고 생육", growthSheet 3), by decide, by decide, by decide⟩
  have h := c5_scenario id (scenarioFiles 2 3) 2 3 hcsv hxlsx
  exact ⟨h.1, h.2.1,
    h.2.2.2.2.2.2.1.trans (by norm_num),
    h.2.2.2.2.2.2.2.trans (by norm_num)⟩

/-- C6: every key of the two loaded per-school mappings is one of the four
fixed labels, and for every sidebar selection every row of each filtered
table carries a `school` tag that is one of the four labels.  Hypotheses:
the loaded tables are well-formed frames with one uniform schema per
mapping (as frames parsed from identically-shaped files are), and the
selection comes from the sidebar list `["전체"] + labels`. -/
theorem c6_tags_in_labels (nfc : String → String) (files : List FileEntry) (sel : String)
    (HE HG : List String)
    (hsel : sel = "전체" ∨ sel ∈ schoolLabels)
    (hwfE : ∀ p ∈ (loadTables nfc files).1, Table.WF p.2)
    (hhE : ∀ p ∈ (loadTables nfc files).1, p.2.header = HE)
    (hwfG : ∀ p ∈ (loadTables nfc files).2, Table.WF p.2)
    (hhG : ∀ p ∈ (loadTables nfc files).2, p.2.header = HG) :
    (∀ s ∈ keys (loadTables nfc files).1, s ∈ schoolLabels) ∧
    (∀ s ∈ keys (loadTables nfc files).2, s ∈ schoolLabels) ∧
    (∀ t, filterTables (loadTables nfc files).1 sel = some t → ∀ r ∈ t.rows,
      ∃ s ∈ schoolLabels, getCellBy t.header r "school" = some (.str s)) ∧
    (∀ t, filterTables (loadTables nfc files).2 sel = some t → ∀ r ∈ t.rows,
      ∃ s ∈ schoolLabels, getCellBy t.header r "school" = some (.str s)) := by
  obtain ⟨hk1, hk2⟩ := loadTables_keys_sub nfc files
  exact ⟨hk1, hk2,
    filter_rows_tagged _ sel HE hk1 hwfE hhE hsel,
    filter_rows_tagged _ sel HG hk2 hwfG hhG hsel⟩

/-- Witness for C6 at a concrete directory, the `"전체"` selection and one
concrete row of the filtered growth table. -/
theorem c6_tags_in_labels_witness :
    "송도고" ∈ schoolLabels ∧
    (∃ s ∈ schoolLabels,
      getCellBy (assignSchool demoGrowthA "송도고").header
        [Value.num 12, Value.num 6, Value.num 110, Value.str "송도고"] "school"
        = some (.str s)) := by
  have h := c6_tags_in_labels id demoFiles "전체"
    ["time", "temperature", "humidity", "ph", "ec"]
    ["생중량(g)", "잎 수(장)", "지상부 길이(mm)"]
    (Or.inl rfl) (by decide) (by decide) (by decide) (by decide)
  refine ⟨h.1 "송도고" (by decide), ?_⟩
  have hfe : filterTables (loadTables id demoFiles).2 "전체" =
      some (concatTables ((loadTables id demoFiles).2.map fun p => assignSchool p.2 p.1)) := by
    rw [filterTables, if_pos rfl]
  have h2 := h.2.2.2 _ hfe
  exact h2 [Value.num 12, Value.num 6, Value.num 110, Value.str "송도고"] (by decide)

/-- C8: CSV export round trip.  Writing a table to the comma-separated
format and re-parsing it yields the same column list and the same number of
rows, modulo value formatting.  Hypotheses: the rendered fields are clean
(no separator, newline or quote characters — exactly the content on which
pandas' minimal quoting writes fields verbatim, and true of every cell the
dashboard exports), the frame is well-formed, and it has at least two
columns, as the environmental export always does. -/
theorem c8_csv_roundtrip (t : Table) (hclean : CleanTable t) (hwf : t.WF)
    (hhdr : 2 ≤ t.header.length) :
    (parseCsv (toCsv t)).header = t.header.map String.toList ∧
    (parseCsv (toCsv t)).rows.length = t.rows.length := by
  obtain ⟨hcleanH, hcleanR⟩ := hclean
  have hheadNoComma : ∀ x ∈ joinChar ',' (t.header.map String.toList), x = ',' ∨
      ∃ h ∈ t.header, x ∈ h.toList := by
    intro x hx
    rcases mem_joinChar ',' _ x hx with h | ⟨p, hp, hxp⟩
    · exact Or.inl h
    · obtain ⟨hh, hhm, rfl⟩ := List.mem_map.mp hp
      exact Or.inr ⟨hh, hhm, hxp⟩
  have hrowNoComma : ∀ r ∈ t.rows, ∀ x ∈ joinChar ',' (r.map renderCell), x = ',' ∨
      ∃ v ∈ r, x ∈ renderCell v := by
    intro r hr x hx
    rcases mem_joinChar ',' _ x hx with h | ⟨p, hp, hxp⟩
    · exact Or.inl h
    · obtain ⟨v, hv, rfl⟩ := List.mem_map.mp hp
      exact Or.inr ⟨v, hv, hxp⟩
  have hlines : ∀ p ∈ ((joinChar ',' (t.header.map String.toList)) ::
      t.rows.map (fun r => joinChar ',' (r.map renderCell))) ++ [([] : List Char)],
      '\n' ∉ p := by
    intro p hp
    rcases List.mem_append.mp hp with hp | hp
    · rcases List.mem_cons.mp hp with rfl | hp2
      · intro hx
        rcases hheadNoComma '\n' hx with h | ⟨hh, hhm, hxh⟩
        · exact absurd h (by decide)
        · exact (hcleanH hh hhm).2.1 hxh
      · obtain ⟨r, hr, rfl⟩ := List.mem_map.mp hp2
        intro hx
        rcases hrowNoComma r hr '\n' hx with h | ⟨v, hv, hxv⟩
        · exact absurd h (by decide)
        · exact (hcleanR r hr v hv).2.1 hxv
    · rcases List.mem_cons.mp hp with rfl | hp2
      · exact List.not_mem_nil _
      · exact absurd hp2 (List.not_mem_nil _)
  have hsplit : splitChar '\n' (toCsv t) =
      ((joinChar ',' (t.header.map String.toList)) ::
        t.rows.map (fun r => joinChar ',' (r.map renderCell))) ++ [([] : List Char)] :=
    splitChar_joinChar '\n' _ (by simp) hlines
  have hlinesNe : ∀ p ∈ ((joinChar ',' (t.header.map String.toList)) ::
      t.rows.map (fun r => joinChar ',' (r.map renderCell))), p ≠ [] := by
    intro p hp
    rcases List.mem_cons.mp hp with rfl | hp2
    · exact joinChar_ne_nil_of_len ',' _ (by simpa using hhdr)
    · obtain ⟨r, hr, rfl⟩ := List.mem_map.mp hp2
      refine joinChar_ne_nil_of_len ',' _ ?_
      rw [List.length_map, hwf r hr]
      exact hhdr
  have hfilter : (splitChar '\n' (toCsv t)).filter (fun l => l ≠ []) =
      (joinChar ',' (t.header.map String.toList)) ::
        t.rows.map (fun r => joinChar ',' (r.map renderCell)) := by
    rw [hsplit, List.filter_append]
    have h1 : (((joinChar ',' (t.header.map String.toList)) ::
        t.rows.map (fun r => joinChar ',' (r.map renderCell))).filter (fun l => l ≠ [])) =
        (joinChar ',' (t.header.map String.toList)) ::
          t.rows.map (fun r => joinChar ',' (r.map renderCell)) := by
      rw [List.filter_eq_self]
      intro a ha
      simpa using hlinesNe a ha
    have h2 : ([([] : List Char)].filter (fun l => l ≠ [])) = [] := by decide
    rw [h1, h2, List.append_nil]
  have hparse : parseCsv (toCsv t) =
      ⟨splitChar ',' (joinChar ',' (t.header.map String.toList)),
       (t.rows.map (fun r => joinChar ',' (r.map renderCell))).map (splitChar ',')⟩ := by
    unfold parseCsv
    rw [hfilter]
  rw [hparse]
  constructor
  · refine splitChar_joinChar ',' _ ?_ ?_
    · intro hcon
      have hlen := congrArg List.length hcon
      rw [List.length_map] at hlen
      simp only [List.length_nil] at hlen
      omega
    · intro p hp
      obtain ⟨hh, hhm, rfl⟩ := List.mem_map.mp hp
      exact (hcleanH hh hhm).1
  · simp

/-- Witness for C8 at a concrete filtered environmental table. -/
theorem c8_csv_roundtrip_witness :
    (parseCsv (toCsv demoFilteredEnv)).header =
      demoFilteredEnv.header.map String.toList ∧
    (parseCsv (toCsv demoFilteredEnv)).rows.length = demoFilteredEnv.rows.length :=
  c8_csv_roundtrip demoFilteredEnv (by decide) (by decide) (by decide)

/-- C9: whenever every loaded growth table has a fresh-weight column with a
defined mean (and the loaded keys are distinct, as the dictionary built by
`load_data` guarantees), the growth-results banner reports the school whose
mean `생중량(g)` is maximal among all loaded schools, together with that
school's configured target EC value. -/
theorem c9_banner_reports_max (g : Dict) (ms : List (String × ℚ)) (b : GrowthBanner)
    (hms : avgWeights g = some ms) (hnd : (keys g).Nodup)
    (hb : growthBanner g = some b) :
    ((b.school, b.avgWeight) ∈ ms ∧ ∀ p ∈ ms, p.2 ≤ b.avgWeight) ∧
    (∀ s t, (s, t) ∈ g → ∀ q, colMean t "생중량(g)" = some q → q ≤ b.avgWeight) ∧
    (lookupInfo b.school).map SchoolInfo.ecTarget = some b.ecTarget := by
  rw [growthBanner, hms] at hb
  have hb2 : (match pyMaxEntry ms with
      | none => none
      | some best =>
        match lookupInfo best.1, lookupQ best.1 ms with
        | some info, some q =>
            some (⟨best.1, info.ecTarget, q⟩ : GrowthBanner)
        | _, _ => none) = some b := hb
  clear hb
  cases hbe : pyMaxEntry ms with
  | none => rw [hbe] at hb2; simp at hb2
  | some best =>
    rw [hbe] at hb2
    have hb3 : (match lookupInfo best.1, lookupQ best.1 ms with
        | some info, some q =>
            some (⟨best.1, info.ecTarget, q⟩ : GrowthBanner)
        | _, _ => none) = some b := hb2
    clear hb2
    obtain ⟨hbestMem, hbestMax⟩ := pyMaxEntry_spec ms best hbe
    have hmsnd : (ms.map (fun p => p.1)).Nodup := by
      rw [meansListAux_keys "생중량(g)" g ms hms]
      exact hnd
    have hlq : lookupQ best.1 ms = some best.2 :=
      lookupQ_of_mem_nodup ms best.1 best.2 hmsnd hbestMem
    cases hinfo : lookupInfo best.1 with
    | none => rw [hinfo] at hb3; simp at hb3
    | some info =>
      rw [hinfo, hlq] at hb3
      obtain rfl : (⟨best.1, info.ecTarget, best.2⟩ : GrowthBanner) = b :=
        Option.some.inj hb3
      refine ⟨⟨hbestMem, hbestMax⟩, ?_, ?_⟩
      · intro s t hst q hq
        exact hbestMax (s, q) (meansListAux_mem "생중량(g)" g ms hms s t hst q hq)
      · rw [hinfo]
        rfl

/-- Witness for C9 at a concrete growth dictionary: `하늘고` has the top
mean fresh weight (20 g) and the banner carries its EC target 2.0. -/
theorem c9_banner_reports_max_witness :
    ((13 : ℚ) ≤ 20 ∧ (20 : ℚ) ≤ 20) ∧
    (lookupInfo "하늘고").map SchoolInfo.ecTarget = some 2 := by
  have h1 : colMean demoGrowthA "생중량(g)" =
      some (((12 : ℚ) + ((14 : ℚ) + 0)) / ((2 : Nat) : ℚ)) := rfl
  have h2 : colMean demoGrowthB "생중량(g)" =
      some (((20 : ℚ) + 0) / ((1 : Nat) : ℚ)) := rfl
  have hm : avgWeights demoGrowthDict = some [("송도고", 13), ("하늘고", 20)] := by
    simp only [avgWeights, meansListAux, h1, h2]
    norm_num
  have hscan : pyMaxEntry [("송도고", (13 : ℚ)), ("하늘고", 20)] =
      some ("하늘고", 20) := by
    simp only [pyMaxEntry, pyMaxScan]
    norm_num
  have hlq : lookupQ "하늘고" [("송도고", (13 : ℚ)), ("하늘고", 20)] = some 20 := by
    simp [lookupQ]
  have hb : growthBanner demoGrowthDict = some ⟨"하늘고", 2, 20⟩ := by
    rw [growthBanner, hm]
    simp only [hscan, hlq]
    rfl
  have h := c9_banner_reports_max demoGrowthDict _ _ hm (by decide) hb
  exact ⟨⟨h.1.2 ("송도고", 13) (List.mem_cons_self _ _),
    h.1.2 ("하늘고", 20) (List.mem_cons_of_mem _ (List.mem_cons_self _ _))⟩, h.2.2⟩

end PlantDash
